import Mathlib

set_option maxRecDepth 8000

/-!
# Verification of the skynet-js SkyDB client (identity + signed-registry protocol)

Shallow embedding of the SkyDB client described by the repository: the
deterministic identity derivation (`User.New`), the canonical FileID
serialization used as the registry DataKey (`JSON.stringify` with renamed
lowercase keys, as exercised by the tests), the entry signer/verifier, and
the `setFile`/`getFile` registry sessions with their revision and
conflict-retry policies.

Bytes are modelled as `List Nat` (each byte < 256 where relevant), strings
as `List Char`.
-/

/-! ## Decimal representation of natural numbers

`JSON.stringify` serializes the numeric `version`, `fileType` and the
`revision` form field as decimal digit strings.  `toDec` is that decimal
representation, written fuel-structurally so concrete inputs evaluate by
`decide`/`rfl`; `decList` is the same value expressed through
`Nat.digits`, which the roundtrip lemmas use.
-/

/-- The character for a single decimal digit `d < 10`. -/
def digitChar (d : Nat) : Char := Char.ofNat (48 + d)

/-- Fuel-structural accumulator loop emitting the decimal digits of `n`. -/
def toDecAux : Nat → Nat → List Char → List Char
  | 0, _, acc => acc
  | fuel + 1, n, acc =>
    if n < 10 then digitChar (n % 10) :: acc
    else toDecAux fuel (n / 10) (digitChar (n % 10) :: acc)

/-- Decimal digit string of `n`, e.g. `toDec 12 = ['1', '2']`. -/
def toDec (n : Nat) : List Char := toDecAux (n + 1) n []

/-- Reference form of the decimal digit string, via `Nat.digits`. -/
def decList (n : Nat) : List Char :=
  if n = 0 then [digitChar 0] else ((Nat.digits 10 n).reverse.map digitChar)

theorem toDecAux_small {fuel n : Nat} (acc : List Char) (hlt : n < 10) :
    toDecAux (fuel + 1) n acc = decList n ++ acc := by
  have hm : n % 10 = n := Nat.mod_eq_of_lt hlt
  rcases Nat.eq_zero_or_pos n with h0 | hpos
  · subst h0; simp [toDecAux, decList]
  · have hd : Nat.digits 10 n = [n] := by
      rw [Nat.digits_def' (by norm_num : 1 < 10) hpos]
      have hdiv : n / 10 = 0 := Nat.div_eq_of_lt hlt
      simp [hdiv, Nat.mod_eq_of_lt hlt]
    have hne : n ≠ 0 := Nat.pos_iff_ne_zero.mp hpos
    simp [toDecAux, hlt, decList, hne, hd, hm]

theorem toDecAux_spec (fuel : Nat) : ∀ (n : Nat) (acc : List Char), n < 10 ^ fuel →
    toDecAux (fuel + 1) n acc = decList n ++ acc := by
  induction fuel with
  | zero =>
    intro n acc h
    have : n = 0 := by simpa using h
    subst this
    exact toDecAux_small acc (by norm_num)
  | succ fuel ih =>
    intro n acc h
    by_cases hlt : n < 10
    · exact toDecAux_small acc hlt
    · push_neg at hlt
      have hpos : 0 < n := lt_of_lt_of_le (by norm_num) hlt
      have hne : n ≠ 0 := Nat.pos_iff_ne_zero.mp hpos
      have hdivpos : 0 < n / 10 := Nat.div_pos hlt (by norm_num)
      have hdivne : n / 10 ≠ 0 := Nat.pos_iff_ne_zero.mp hdivpos
      have hfuel : n / 10 < 10 ^ fuel := by
        have h1 : n < 10 ^ fuel * 10 := by
          have h2 := h
          rw [pow_succ] at h2
          exact h2
        exact Nat.div_lt_of_lt_mul (by omega)
      have hrec := ih (n / 10) (digitChar (n % 10) :: acc) hfuel
      have hstep : toDecAux (fuel + 1 + 1) n acc
          = toDecAux (fuel + 1) (n / 10) (digitChar (n % 10) :: acc) := by
        simp [toDecAux, Nat.not_lt.mpr hlt]
      rw [hstep, hrec]
      have hd : Nat.digits 10 n = n % 10 :: Nat.digits 10 (n / 10) :=
        Nat.digits_def' (by norm_num : 1 < 10) hpos
      simp [decList, hne, hdivne, hd, List.append_assoc]

theorem toDec_eq_decList (n : Nat) : toDec n = decList n := by
  have h : n < 10 ^ n := Nat.lt_pow_self (by norm_num) n
  simpa using toDecAux_spec n n [] h

/-- Every character `toDec` emits is one of the ten decimal digit chars. -/
def isDigitCh (c : Char) : Bool := 48 ≤ c.toNat && c.toNat ≤ 57

theorem digitChar_isDigit {d : Nat} (hd : d < 10) : isDigitCh (digitChar d) = true := by
  interval_cases d <;> decide

theorem toDec_all_digits (n : Nat) : ∀ c ∈ toDec n, isDigitCh c = true := by
  intro c hc
  rw [toDec_eq_decList, decList] at hc
  by_cases hn : n = 0
  · simp [hn] at hc
    subst hc; decide
  · simp [hn] at hc
    obtain ⟨d, hd, rfl⟩ := hc
    exact digitChar_isDigit (Nat.digits_lt_base (by norm_num) hd)

theorem digitChar_inj {a b : Nat} (ha : a < 10) (hb : b < 10)
    (h : digitChar a = digitChar b) : a = b := by
  interval_cases a <;> interval_cases b <;> simp_all <;> exact absurd h (by decide)

theorem map_digitChar_inj : ∀ (xs ys : List Nat), (∀ d ∈ xs, d < 10) →
    (∀ d ∈ ys, d < 10) → xs.map digitChar = ys.map digitChar → xs = ys := by
  intro xs
  induction xs with
  | nil => intro ys _ _ h; cases ys <;> simp_all
  | cons x xs ih =>
    intro ys hxs hys h
    cases ys with
    | nil => simp at h
    | cons y ys =>
      simp at h
      obtain ⟨h1, h2⟩ := h
      have hx : x = y := digitChar_inj (hxs x (by simp)) (hys y (by simp)) h1
      have hrest := ih ys (fun d hd => hxs d (by simp [hd]))
        (fun d hd => hys d (by simp [hd])) h2
      rw [hx, hrest]

theorem toDec_inj {n m : Nat} (h : toDec n = toDec m) : n = m := by
  rw [toDec_eq_decList, toDec_eq_decList] at h
  unfold decList at h
  by_cases hn : n = 0 <;> by_cases hm : m = 0
  · omega
  · exfalso
    simp [hn, hm] at h
    have hofd := Nat.ofDigits_digits 10 m
    rw [← List.reverse_inj] at h
    have hlen := congrArg List.length h
    simp at hlen
    rcases hd : Nat.digits 10 m with _ | ⟨d, ds⟩
    · rw [hd] at hofd; simp at hofd; exact hm hofd.symm
    · rw [hd] at hlen; simp at hlen
      rw [hd, hlen] at h
      simp at h
      have hd0 : d = 0 := by
        have := h
        have h10 : digitChar d = digitChar 0 := by
          simpa using this.symm
        exact digitChar_inj (by
          have : d ∈ Nat.digits 10 m := by rw [hd]; simp
          exact Nat.digits_lt_base (by norm_num) this) (by norm_num) h10
      rw [hd, hlen, hd0] at hofd
      simp [Nat.ofDigits] at hofd
      exact hm hofd.symm
  · exfalso
    simp [hn, hm] at h
    have hofd := Nat.ofDigits_digits 10 n
    rw [← List.reverse_inj] at h
    have hlen := congrArg List.length h
    simp at hlen
    rcases hd : Nat.digits 10 n with _ | ⟨d, ds⟩
    · rw [hd] at hofd; simp at hofd; exact hn hofd.symm
    · rw [hd] at hlen; simp at hlen
      rw [hd, hlen] at h
      simp at h
      have hd0 : d = 0 := by
        have h10 : digitChar d = digitChar 0 := by simpa using h
        exact digitChar_inj (by
          have : d ∈ Nat.digits 10 n := by rw [hd]; simp
          exact Nat.digits_lt_base (by norm_num) this) (by norm_num) h10
      rw [hd, hlen, hd0] at hofd
      simp [Nat.ofDigits] at hofd
      exact hn hofd.symm
  · simp [hn, hm] at h
    have hdig : Nat.digits 10 n = Nat.digits 10 m :=
      map_digitChar_inj _ _
        (fun d hd => Nat.digits_lt_base (by norm_num) hd)
        (fun d hd => Nat.digits_lt_base (by norm_num) hd) h
    calc n = Nat.ofDigits 10 (Nat.digits 10 n) := (Nat.ofDigits_digits 10 n).symm
    _ = Nat.ofDigits 10 (Nat.digits 10 m) := by rw [hdig]
    _ = m := Nat.ofDigits_digits 10 m


/-! ## JSON string escaping

`JSON.stringify` emits string values between double quotes, escaping the
two structurally significant characters, the double quote and the
backslash, with a preceding backslash (control-character escapes do not
affect the delimiter structure and are not modelled).  `unesc` is the
matching parser: it consumes characters up to the first unescaped closing
quote.  The roundtrip lemma `unesc_esc` makes the full FileID encoding
uniquely parseable, which is what the injectivity claim needs.
-/

/-- Escape `"` and `\` with a preceding backslash, as in a JSON string body. -/
def jsonEsc : List Char → List Char
  | [] => []
  | c :: cs =>
    if c = '"' ∨ c = '\\' then '\\' :: c :: jsonEsc cs
    else c :: jsonEsc cs

/-- Parse a JSON string body up to its closing quote, undoing `jsonEsc`;
returns the decoded body and the remainder after the closing quote. -/
def unesc : List Char → Option (List Char × List Char)
  | [] => none
  | c :: cs =>
    if c = '\\' then
      match cs with
      | [] => none
      | d :: ds => (unesc ds).map (fun p => (d :: p.1, p.2))
    else if c = '"' then some ([], cs)
    else (unesc cs).map (fun p => (c :: p.1, p.2))

theorem unesc_cons (c : Char) (cs : List Char) :
    unesc (c :: cs) =
      if c = '\\' then
        match cs with
        | [] => none
        | d :: ds => (unesc ds).map (fun p => (d :: p.1, p.2))
      else if c = '"' then some ([], cs)
      else (unesc cs).map (fun p => (c :: p.1, p.2)) := by
  rw [unesc.eq_def]

theorem unesc_esc : ∀ (s rest : List Char),
    unesc (jsonEsc s ++ '"' :: rest) = some (s, rest) := by
  intro s
  induction s with
  | nil =>
    intro rest
    show unesc ('"' :: rest) = some ([], rest)
    rw [unesc_cons, if_neg (by decide), if_pos rfl]
  | cons c cs ih =>
    intro rest
    by_cases hc : c = '"' ∨ c = '\\'
    · simp only [jsonEsc, if_pos hc, List.cons_append]
      rw [unesc_cons, if_pos rfl]
      simp [ih rest]
    · push_neg at hc
      have hcc : ¬(c = '"' ∨ c = '\\') := by tauto
      simp only [jsonEsc, if_neg hcc, List.cons_append]
      rw [unesc_cons, if_neg hc.2, if_neg hc.1]
      simp [ih rest]

/-- Quote-terminated escaped segments of a longer string parse uniquely. -/
theorem esc_append_inj {s1 s2 r1 r2 : List Char}
    (h : jsonEsc s1 ++ '"' :: r1 = jsonEsc s2 ++ '"' :: r2) :
    s1 = s2 ∧ r1 = r2 := by
  have h1 := unesc_esc s1 r1
  have h2 := unesc_esc s2 r2
  rw [h] at h1
  rw [h2] at h1
  simp at h1
  exact ⟨h1.1.symm, h1.2.symm⟩

/-! ## Digit-run parsing

The decimal fields (`version`, `filetype`) are followed in the encoding by
a non-digit character (a comma), so the digit run is uniquely delimited.
-/

/-- `nonDigitStart r` holds when `r` does not begin with a decimal digit. -/
def nonDigitStart : List Char → Prop
  | [] => True
  | c :: _ => isDigitCh c = false

theorem digits_append_inj : ∀ (a1 a2 r1 r2 : List Char),
    (∀ c ∈ a1, isDigitCh c = true) → (∀ c ∈ a2, isDigitCh c = true) →
    nonDigitStart r1 → nonDigitStart r2 →
    a1 ++ r1 = a2 ++ r2 → a1 = a2 ∧ r1 = r2 := by
  intro a1
  induction a1 with
  | nil =>
    intro a2 r1 r2 _ ha2 hr1 _ h
    cases a2 with
    | nil => simpa using h
    | cons b bs =>
      exfalso
      simp at h
      rw [h] at hr1
      have hb := ha2 b (by simp)
      simp [nonDigitStart] at hr1
      rw [hb] at hr1
      exact absurd hr1 (by simp)
  | cons a as ih =>
    intro a2 r1 r2 ha1 ha2 hr1 hr2 h
    cases a2 with
    | nil =>
      exfalso
      simp at h
      rw [← h] at hr2
      have hb := ha1 a (by simp)
      simp [nonDigitStart] at hr2
      rw [hb] at hr2
      exact absurd hr2 (by simp)
    | cons b bs =>
      simp at h
      obtain ⟨hab, hrest⟩ := h
      have := ih bs r1 r2 (fun c hc => ha1 c (by simp [hc]))
        (fun c hc => ha2 c (by simp [hc])) hr1 hr2 hrest
      exact ⟨by rw [hab, this.1], this.2⟩

theorem nonDigitStart_cons (c : Char) (l : List Char) :
    nonDigitStart (c :: l) = (isDigitCh c = false) := rfl

/-! ## FileID and its canonical serialization

`NewFileID(applicationID, fileType, filename)` constructs
`{version: 1, applicationID, fileType, filename}`.  The wire form used for
both the registry lookup query and the update submission is
`JSON.stringify({version, applicationid, filetype, filename})` — the test
file builds exactly this object, renaming `applicationID`/`fileType` to
all-lowercase keys.  `fileType` is a TypeScript numeric enum
(`FileType.PublicUnencrypted`), modelled by its underlying integer code.
-/

structure FileID where
  version : Nat
  applicationID : List Char
  fileType : Nat
  filename : List Char
deriving DecidableEq

/-- `NewFileID` pins `version` to 1, per the client-facing surface. -/
def NewFileID (applicationID : List Char) (fileType : Nat)
    (filename : List Char) : FileID :=
  { version := 1, applicationID := applicationID, fileType := fileType,
    filename := filename }

def lit1 : List Char := "\x7b\"version\":".toList
def lit2 : List Char := ",\"applicationid\":\"".toList
def lit3 : List Char := "\",\"filetype\":".toList
def lit4 : List Char := ",\"filename\":\"".toList
def lit5 : List Char := "\"\x7d".toList

/-- `JSON.stringify({version: f.version, applicationid: f.applicationID,
filetype: f.fileType, filename: f.filename})` as a character list, with the
two string-valued fields escaped. -/
def encodeFileID (f : FileID) : List Char :=
  lit1 ++ (toDec f.version ++ (lit2 ++ (jsonEsc f.applicationID ++
    (lit3 ++ (toDec f.fileType ++ (lit4 ++ (jsonEsc f.filename ++ lit5)))))))

def lit2orig : List Char := ",\"applicationID\":\"".toList
def lit3orig : List Char := "\",\"fileType\":".toList

/-- `JSON.stringify` applied to the FileID object with its original
(camel-case) field names, in declaration order. -/
def encodeFileIDOrig (f : FileID) : List Char :=
  lit1 ++ (toDec f.version ++ (lit2orig ++ (jsonEsc f.applicationID ++
    (lit3orig ++ (toDec f.fileType ++ (lit4 ++ (jsonEsc f.filename ++ lit5)))))))

theorem lit2_head : lit2 = ',' :: "\"applicationid\":\"".toList := rfl
theorem lit3_head : lit3 = '"' :: ",\"filetype\":".toList := rfl
theorem lit4_head : lit4 = ',' :: "\"filename\":\"".toList := rfl
theorem lit5_head : lit5 = '"' :: "\x7d".toList := rfl

theorem encodeFileID_injective {f g : FileID}
    (h : encodeFileID f = encodeFileID g) : f = g := by
  obtain ⟨v1, a1, t1, n1⟩ := f
  obtain ⟨v2, a2, t2, n2⟩ := g
  unfold encodeFileID at h
  simp only at h
  have h1 := List.append_cancel_left h
  have hnd1 : nonDigitStart (lit2 ++ (jsonEsc a1 ++
      (lit3 ++ (toDec t1 ++ (lit4 ++ (jsonEsc n1 ++ lit5)))))) := by
    rw [lit2_head, List.cons_append, nonDigitStart_cons]; decide
  have hnd2 : nonDigitStart (lit2 ++ (jsonEsc a2 ++
      (lit3 ++ (toDec t2 ++ (lit4 ++ (jsonEsc n2 ++ lit5)))))) := by
    rw [lit2_head, List.cons_append, nonDigitStart_cons]; decide
  obtain ⟨hv, h2⟩ := digits_append_inj _ _ _ _
    (toDec_all_digits v1) (toDec_all_digits v2) hnd1 hnd2 h1
  have hvv : v1 = v2 := toDec_inj hv
  have h3 := List.append_cancel_left h2
  rw [lit3_head] at h3
  simp only [List.cons_append] at h3
  obtain ⟨ha, h4⟩ := esc_append_inj h3
  have h5 := List.append_cancel_left h4
  have hnd3 : nonDigitStart (lit4 ++ (jsonEsc n1 ++ lit5)) := by
    rw [lit4_head, List.cons_append, nonDigitStart_cons]; decide
  have hnd4 : nonDigitStart (lit4 ++ (jsonEsc n2 ++ lit5)) := by
    rw [lit4_head, List.cons_append, nonDigitStart_cons]; decide
  obtain ⟨ht, h6⟩ := digits_append_inj _ _ _ _
    (toDec_all_digits t1) (toDec_all_digits t2) hnd3 hnd4 h5
  have htt : t1 = t2 := toDec_inj ht
  have h7 := List.append_cancel_left h6
  rw [lit5_head] at h7
  obtain ⟨hn, -⟩ := esc_append_inj h7
  subst hvv; subst ha; subst htt; subst hn
  rfl

/-! ## Identity derivation

Modelled from the spec: the repository's `skydb` module (the
implementation of `User.New`) is not present under `src/`; only its tests
are.  Per the spec, `User.New(username, password)` combines the
credentials under a fixed scheme, feeds them through a cryptographic hash
to obtain a seed, and expands the seed deterministically into a signing
keypair — no randomness, no external state.  The hash is abstracted here
by a concrete deterministic byte-mixing function; what matters for the
claims is that the whole pipeline is a pure function of its two inputs.
-/

/-- One step of the deterministic byte-mixing hash. -/
def mixByte (acc b : Nat) : Nat := (acc * 131 + b + 1) % (2 ^ 64)

/-- Deterministic 64-bit digest of a byte stream. -/
def hashStream (bs : List Nat) : Nat := bs.foldl mixByte 1099511628211

/-- Deterministic expansion of a byte stream into 32 bytes. -/
def hashBytes32 (bs : List Nat) : List Nat :=
  (List.range 32).map (fun i => hashStream (i :: bs) % 256)

/-- Hex character for `d < 16`. -/
def hexDigit (d : Nat) : Char :=
  if d < 10 then digitChar d else Char.ofNat (97 + (d - 10))

/-- Two-character lowercase hex form of one byte. -/
def byteToHex (b : Nat) : List Char := [hexDigit (b / 16 % 16), hexDigit (b % 16)]

structure User where
  publicKey : List Nat
  privateKey : List Nat
  id : List Char
deriving DecidableEq

/-- Modelled from the spec: combine username and password into a single
hash input under a fixed scheme (a `0` separator byte keeps the pair
unambiguous), derive the seed, expand it into the keypair; `id` is the
hex-encoded public key. -/
def User.New (username password : List Char) : User :=
  let seed := hashBytes32 (username.map Char.toNat ++ (0 :: password.map Char.toNat))
  let publicKey := hashBytes32 (0 :: seed)
  { publicKey := publicKey, privateKey := seed ++ publicKey,
    id := (publicKey.map byteToHex).flatten }

/-! ## Registry entries, signing and verification

Modelled from the spec: the entry signer/verifier is in the `skydb`
module, absent from `src/`.  The signed payload is the canonical
concatenation of the DataKey bytes, the data bytes, and the revision as a
fixed-width 8-byte little-endian integer.  The Ed25519 scheme is
abstracted: a signature is modelled as the (payload, signer public key)
pair it attests to, which keeps signing deterministic and verification a
pure function of (message, signature, public key).
-/

structure RegistryEntry where
  dataKey : List Nat
  data : List Nat
  revision : Nat
deriving DecidableEq

/-- The revision as a fixed-width 8-byte little-endian integer. -/
def revLE8 (rev : Nat) : List Nat :=
  (List.range 8).map (fun i => rev / 256 ^ i % 256)

/-- Canonical signed payload: DataKey bytes, then data bytes, then the
8-byte revision. -/
def entryPayload (e : RegistryEntry) : List Nat :=
  e.dataKey ++ e.data ++ revLE8 e.revision

structure EntrySig where
  signedPayload : List Nat
  signerKey : List Nat
deriving DecidableEq

structure SignedRegistryEntry where
  entry : RegistryEntry
  signature : EntrySig
deriving DecidableEq

/-- Modelled from the spec: sign the canonical payload with the user's
(private) key — abstracted as attesting the payload under the matching
public key. -/
def sign (e : RegistryEntry) (u : User) : SignedRegistryEntry :=
  { entry := e,
    signature := { signedPayload := entryPayload e, signerKey := u.publicKey } }

/-- Modelled from the spec: verification recomputes the canonical payload
and checks the signature against the supplied public key. -/
def verify (se : SignedRegistryEntry) (publicKey : List Nat) : Bool :=
  decide (se.signature.signedPayload = entryPayload se.entry) &&
    decide (se.signature.signerKey = publicKey)

/-! ## The registry session

Modelled from the spec: the `setFile`/`getFile` session code lives in the
`skydb` module, absent from `src/`; the model follows §4.4 of the spec and
the request/response shapes pinned down by the tests.  The Registry
Transport and Blob Store are abstracted as an environment: `lookup i` is
the outcome of the `i`-th registry lookup of the session, `updateAccepts i`
tells whether the `i`-th submission is accepted or rejected as a conflict,
and `uploadResult` is the content locator the blob upload returns.
-/

inductive RawLookup where
  | found (se : SignedRegistryEntry)
  | notFound
  | failed
deriving DecidableEq

structure SetEnv where
  uploadResult : List Nat
  lookup : Nat → RawLookup
  updateAccepts : Nat → Bool

/-- The registry DataKey for a FileID: the bytes of its canonical
serialization. -/
def dataKeyBytes (f : FileID) : List Nat := (encodeFileID f).map Char.toNat

/-- The lookup request's query string fields, `{userid, fileid}`. -/
structure LookupQuery where
  userid : List Char
  fileid : List Char
deriving DecidableEq

def lookupQuery (u : User) (f : FileID) : LookupQuery :=
  { userid := u.id, fileid := encodeFileID f }

/-- The update submission's form fields,
`{publickey, fileid, revision, data, signature}`; `revision` is a decimal
string. -/
structure UpdateForm where
  publickey : List Char
  fileid : List Char
  revision : List Char
  data : List Nat
  signature : EntrySig
deriving DecidableEq

def updateForm (u : User) (f : FileID) (se : SignedRegistryEntry) : UpdateForm :=
  { publickey := u.id, fileid := encodeFileID f,
    revision := toDec se.entry.revision, data := se.entry.data,
    signature := se.signature }

/-- One HTTP request of a `setFile` session: the blob upload (POST), the
registry lookup (GET), or a registry update submission (POST). -/
inductive Request where
  | blobUpload
  | registryLookup (q : LookupQuery)
  | registryUpdate (se : SignedRegistryEntry)
deriving DecidableEq

def isGet : Request → Bool
  | .registryLookup _ => true
  | _ => false

def isPost : Request → Bool
  | .blobUpload => true
  | .registryUpdate _ => true
  | _ => false

def isUpdate : Request → Bool
  | .registryUpdate _ => true
  | _ => false

/-- Modelled from the spec: the three lookup outcomes determine the
revision to submit — verified success means previous revision + 1, and
everything else (explicit not-found, failed lookup, or an entry whose
signature does not verify) falls back to revision 0. -/
def nextRevision (u : User) (l : RawLookup) : Nat :=
  match l with
  | .found se => if verify se u.publicKey then se.entry.revision + 1 else 0
  | .notFound => 0
  | .failed => 0

/-- The signed entry the session submits on its `attempt`-th try. -/
def attemptEntry (u : User) (f : FileID) (env : SetEnv) (attempt : Nat) :
    SignedRegistryEntry :=
  sign { dataKey := dataKeyBytes f, data := env.uploadResult,
         revision := nextRevision u (env.lookup attempt) } u

inductive SetFileOutcome where
  | done
  | conflictError
deriving DecidableEq

/-- Lookup → recompute revision → sign → submit, re-run on conflict with
the remaining retry budget; every attempt re-lookups and re-signs. -/
def setFileLoop (u : User) (f : FileID) (env : SetEnv) :
    Nat → Nat → SetFileOutcome × List Request
  | attempt, 0 =>
    let tr := [Request.registryLookup (lookupQuery u f),
               Request.registryUpdate (attemptEntry u f env attempt)]
    if env.updateAccepts attempt then (.done, tr) else (.conflictError, tr)
  | attempt, retries + 1 =>
    let tr := [Request.registryLookup (lookupQuery u f),
               Request.registryUpdate (attemptEntry u f env attempt)]
    if env.updateAccepts attempt then (.done, tr)
    else
      let nxt := setFileLoop u f env (attempt + 1) retries
      (nxt.1, tr ++ nxt.2)

/-- `setFile`: upload the blob first, then run the lookup/sign/submit loop
with a bounded retry budget. -/
def setFile (u : User) (f : FileID) (env : SetEnv) (retries : Nat) :
    SetFileOutcome × List Request :=
  let nxt := setFileLoop u f env 0 retries
  (nxt.1, Request.blobUpload :: nxt.2)

/-- The first registry update submission of a request trace. -/
def firstUpdate : List Request → Option SignedRegistryEntry
  | [] => none
  | Request.registryUpdate se :: _ => some se
  | _ :: rest => firstUpdate rest

def countGet (tr : List Request) : Nat := tr.countP (fun r => isGet r)

def countPost (tr : List Request) : Nat := tr.countP (fun r => isPost r)

def countUpdates (tr : List Request) : Nat := tr.countP (fun r => isUpdate r)

def countUploads (tr : List Request) : Nat :=
  tr.countP (fun r => match r with | Request.blobUpload => true | _ => false)

/-! ## The read path (`getFile`)

Modelled from the spec: compute the DataKey, perform one registry lookup,
verify the returned entry's signature against the user's public key before
trusting the data pointer, and only then resolve the pointer through the
Blob Store.  The second component of the result is the list of content
locators fetched from the Blob Store.
-/

inductive GetOutcome where
  | fileData (bytes : List Nat)
  | integrityError
  | notFoundResult
  | lookupFailed
deriving DecidableEq

structure GetEnv where
  lookup : RawLookup
  blob : List Nat → List Nat

def getFile (u : User) (env : GetEnv) : GetOutcome × List (List Nat) :=
  match env.lookup with
  | .failed => (.lookupFailed, [])
  | .notFound => (.notFoundResult, [])
  | .found se =>
    if verify se u.publicKey then
      (.fileData (env.blob se.entry.data), [se.entry.data])
    else (.integrityError, [])

/-! ## The registry's accept/reject rule

Per the spec's optimistic-concurrency glossary, the registry accepts a
write only if its revision strictly exceeds the currently stored revision
for that (publicKey, dataKey) pair; otherwise the write is rejected as a
conflict and the stored entry is unchanged.
-/

def registryAccepts (stored submitted : Nat) : Bool := stored < submitted

def registryStep (stored submitted : Nat) : Nat :=
  if registryAccepts stored submitted then submitted else stored

/-! ## Structural lemmas about the `setFile` session -/

theorem firstUpdate_setFileLoop (u : User) (f : FileID) (env : SetEnv) :
    ∀ (retries attempt : Nat),
    firstUpdate (setFileLoop u f env attempt retries).2 =
      some (attemptEntry u f env attempt) := by
  intro retries attempt
  cases retries with
  | zero =>
    by_cases h : env.updateAccepts attempt <;>
      simp [setFileLoop, h, firstUpdate]
  | succ r =>
    by_cases h : env.updateAccepts attempt <;>
      simp [setFileLoop, h, firstUpdate]

theorem firstUpdate_setFile (u : User) (f : FileID) (env : SetEnv) (retries : Nat) :
    firstUpdate (setFile u f env retries).2 = some (attemptEntry u f env 0) := by
  simp [setFile, firstUpdate, firstUpdate_setFileLoop]

theorem setFile_take3 (u : User) (f : FileID) (env : SetEnv) (retries : Nat) :
    (setFile u f env retries).2.take 3 =
      [Request.blobUpload, Request.registryLookup (lookupQuery u f),
       Request.registryUpdate (attemptEntry u f env 0)] := by
  cases retries with
  | zero => by_cases h : env.updateAccepts 0 <;> simp [setFile, setFileLoop, h]
  | succ r => by_cases h : env.updateAccepts 0 <;> simp [setFile, setFileLoop, h]

theorem countUpdates_append (a b : List Request) :
    countUpdates (a ++ b) = countUpdates a + countUpdates b := by
  simp [countUpdates, List.countP_append]

theorem countGet_append (a b : List Request) :
    countGet (a ++ b) = countGet a + countGet b := by
  simp [countGet, List.countP_append]

theorem countPost_append (a b : List Request) :
    countPost (a ++ b) = countPost a + countPost b := by
  simp [countPost, List.countP_append]

theorem countUpdates_pair (q : LookupQuery) (se : SignedRegistryEntry) :
    countUpdates [Request.registryLookup q, Request.registryUpdate se] = 1 := rfl

theorem countGet_pair (q : LookupQuery) (se : SignedRegistryEntry) :
    countGet [Request.registryLookup q, Request.registryUpdate se] = 1 := rfl

theorem countUpdates_setFileLoop (u : User) (f : FileID) (env : SetEnv) :
    ∀ (retries attempt : Nat),
    countUpdates (setFileLoop u f env attempt retries).2 ≤ retries + 1 ∧
    countGet (setFileLoop u f env attempt retries).2 =
      countUpdates (setFileLoop u f env attempt retries).2 := by
  intro retries
  induction retries with
  | zero =>
    intro attempt
    by_cases h : env.updateAccepts attempt <;>
      · simp only [setFileLoop, h]
        simp [countUpdates_pair, countGet_pair]
  | succ r ih =>
    intro attempt
    by_cases h : env.updateAccepts attempt
    · simp only [setFileLoop, h]
      simp [countUpdates_pair, countGet_pair]
    · have hr := ih (attempt + 1)
      have htr : (setFileLoop u f env attempt (r + 1)).2 =
          [Request.registryLookup (lookupQuery u f),
           Request.registryUpdate (attemptEntry u f env attempt)] ++
            (setFileLoop u f env (attempt + 1) r).2 := by
        simp [setFileLoop, h]
      rw [htr, countUpdates_append, countGet_append, countUpdates_pair, countGet_pair]
      omega

theorem setFileLoop_all_conflict (u : User) (f : FileID) (env : SetEnv)
    (hconf : ∀ i, env.updateAccepts i = false) :
    ∀ (retries attempt : Nat),
    (setFileLoop u f env attempt retries).1 = SetFileOutcome.conflictError := by
  intro retries
  induction retries with
  | zero => intro attempt; simp [setFileLoop, hconf attempt]
  | succ r ih => intro attempt; simp [setFileLoop, hconf attempt, ih (attempt + 1)]

theorem setFileLoop_done_accepted (u : User) (f : FileID) (env : SetEnv) :
    ∀ (retries attempt : Nat),
    (setFileLoop u f env attempt retries).1 = SetFileOutcome.done →
    ∃ i, attempt ≤ i ∧ i ≤ attempt + retries ∧ env.updateAccepts i = true := by
  intro retries
  induction retries with
  | zero =>
    intro attempt h
    by_cases ha : env.updateAccepts attempt
    · exact ⟨attempt, le_refl _, by omega, ha⟩
    · simp [setFileLoop, ha] at h
  | succ r ih =>
    intro attempt h
    by_cases ha : env.updateAccepts attempt
    · exact ⟨attempt, le_refl _, by omega, ha⟩
    · simp only [setFileLoop, ha, if_neg, Bool.false_eq_true, not_false_eq_true] at h
      obtain ⟨i, h1, h2, h3⟩ := ih (attempt + 1) h
      exact ⟨i, by omega, by omega, h3⟩

theorem registryStep_le (stored submitted : Nat) :
    stored ≤ registryStep stored submitted := by
  by_cases h : registryAccepts stored submitted
  · simp only [registryStep, if_pos h]
    simp [registryAccepts] at h
    omega
  · simp [registryStep, h]

theorem registry_foldl_step_le : ∀ (subs : List Nat) (stored : Nat),
    stored ≤ List.foldl registryStep stored subs := by
  intro subs
  induction subs with
  | nil => intro stored; simp
  | cons s rest ih =>
    intro stored
    calc stored ≤ registryStep stored s := registryStep_le stored s
    _ ≤ List.foldl registryStep (registryStep stored s) rest := ih _

/-! ## Concrete fixtures

The user, FileID and environments the witnesses and counterexamples
evaluate at, mirroring the test file: a user derived from fixed
credentials, `NewFileID(appID, FileType.PublicUnencrypted, filename)`, a
lookup that returns a verified entry at revision 11, a failing lookup, and
a transport that always reports a conflict.
-/

def userC : User := User.New ("a".toList) ("b".toList)

def fidC : FileID := NewFileID ("SkySkapp".toList) 1 ("foo.txt".toList)

def fidD : FileID := NewFileID ("SkySkapp".toList) 1 ("bar.txt".toList)

def seC11 : SignedRegistryEntry :=
  sign { dataKey := dataKeyBytes fidC, data := [7], revision := 11 } userC

/-- A found entry whose signature does not verify (tampered payload). -/
def seBad : SignedRegistryEntry :=
  { entry := { dataKey := dataKeyBytes fidC, data := [7], revision := 11 },
    signature := { signedPayload := [9], signerKey := [] } }

def envFound11 : SetEnv :=
  { uploadResult := [7], lookup := fun _ => RawLookup.found seC11,
    updateAccepts := fun _ => true }

def envLookupFail : SetEnv :=
  { uploadResult := [7], lookup := fun _ => RawLookup.failed,
    updateAccepts := fun _ => true }

def envAllConflict : SetEnv :=
  { uploadResult := [7], lookup := fun _ => RawLookup.notFound,
    updateAccepts := fun _ => false }

def envGetGood : GetEnv :=
  { lookup := RawLookup.found seC11, blob := fun l => 1 :: l }

def envGetBad : GetEnv :=
  { lookup := RawLookup.found seBad, blob := fun l => 1 :: l }

/-! ## Claim theorems -/

/-- C4: identity derivation is deterministic — for every (username,
password) pair, every invocation of `User.New` yields a byte-identical
keypair and identical user id; in particular 100 repeated invocations all
yield the same user.  (`User.New` is modelled from the spec as a pure
function of its inputs: no randomness, no external state.) -/
theorem User_New_deterministic (username password : List Char) :
    User.New username password = User.New username password ∧
    (List.replicate 100 (User.New username password)).all
      (fun u => decide (u = User.New username password)) = true := by
  refine ⟨rfl, ?_⟩
  rw [List.all_eq_true]
  intro u hu
  have h := List.eq_of_mem_replicate hu
  subst h
  simp

/-- C6: the FileID encoding used as the registry DataKey is a total,
deterministic and injective function of the four fields (version,
applicationID, fileType, filename) serialized in that fixed order: two
FileIDs encode to the same bytes exactly when all four fields agree. -/
theorem encodeFileID_inj_deterministic (f g : FileID) :
    encodeFileID f = encodeFileID g ↔ f = g :=
  ⟨encodeFileID_injective, fun h => by rw [h]⟩

/-- C6 witness: the two concrete FileIDs from the tests, differing only in
`filename`, have distinct encodings, and a FileID equals itself. -/
theorem encodeFileID_inj_deterministic_witness :
    ((encodeFileID fidC = encodeFileID fidD) ↔ (fidC = fidD)) ∧
    encodeFileID fidC ≠ encodeFileID fidD :=
  ⟨encodeFileID_inj_deterministic fidC fidD,
   fun h => by
     have := (encodeFileID_inj_deterministic fidC fidD).mp h
     exact absurd this (by decide)⟩

/-- C7: signing and verification round-trip — for every registry entry
and every identity, `verify (sign entry identity) identity.publicKey`
holds, where the signed payload is the canonical concatenation of the
DataKey bytes, the data bytes, and the revision as a fixed-width 8-byte
(little-endian) integer. -/
theorem verify_sign_roundtrip (e : RegistryEntry) (u : User) :
    verify (sign e u) u.publicKey = true ∧
    entryPayload e = e.dataKey ++ e.data ++ revLE8 e.revision ∧
    (revLE8 e.revision).length = 8 := by
  refine ⟨?_, rfl, by simp [revLE8]⟩
  simp [verify, sign]

/-- The signed entry `setFile` constructs for submission: DataKey from the
FileID, data = the uploaded content locator, and the computed revision,
signed with the user's key (spec §4.4 step 3). -/
def submittedEntry (u : User) (f : FileID) (locator : List Nat) (rev : Nat) :
    SignedRegistryEntry :=
  sign { dataKey := dataKeyBytes f, data := locator, revision := rev } u

theorem attemptEntry_eq_submittedEntry (u : User) (f : FileID) (env : SetEnv)
    (attempt : Nat) :
    attemptEntry u f env attempt =
      submittedEntry u f env.uploadResult (nextRevision u (env.lookup attempt)) := rfl

/-- C1: when the registry lookup succeeds and the returned entry's
signature verifies, the revision submitted in the subsequent registry
update is the looked-up entry's revision plus 1, and the update form
carries it as its decimal string. -/
theorem setFile_revision_increment (u : User) (f : FileID) (env : SetEnv)
    (retries : Nat) (se : SignedRegistryEntry)
    (hlook : env.lookup 0 = RawLookup.found se)
    (hver : verify se u.publicKey = true) :
    firstUpdate (setFile u f env retries).2 =
      some (submittedEntry u f env.uploadResult (se.entry.revision + 1)) ∧
    (updateForm u f (submittedEntry u f env.uploadResult (se.entry.revision + 1))).revision
      = toDec (se.entry.revision + 1) := by
  refine ⟨?_, rfl⟩
  rw [firstUpdate_setFile, attemptEntry_eq_submittedEntry]
  rw [hlook]
  simp [nextRevision, hver]

/-- C1 witness: a lookup returning revision 11 leads to an update
submitted with revision 12, encoded as the decimal string "12". -/
theorem setFile_revision_increment_witness :
    firstUpdate (setFile userC fidC envFound11 0).2 =
      some (submittedEntry userC fidC [7] 12) ∧
    (updateForm userC fidC (submittedEntry userC fidC [7] 12)).revision
      = ("12".toList) := by
  have h := setFile_revision_increment userC fidC envFound11 0 seC11 rfl
    (by decide)
  exact ⟨h.1, by decide⟩

/-- C2: when the lookup does not succeed — explicit not-found, or a
failure for any other reason (network error, malformed response,
non-success HTTP status, all modelled by the `failed` outcome) — the
subsequent registry update is submitted with revision 0, carried as the
decimal string "0". -/
theorem setFile_fallback_zero (u : User) (f : FileID) (env : SetEnv)
    (retries : Nat)
    (h : env.lookup 0 = RawLookup.notFound ∨ env.lookup 0 = RawLookup.failed) :
    firstUpdate (setFile u f env retries).2 =
      some (submittedEntry u f env.uploadResult 0) ∧
    (updateForm u f (submittedEntry u f env.uploadResult 0)).revision
      = ("0".toList) := by
  refine ⟨?_, rfl⟩
  rw [firstUpdate_setFile, attemptEntry_eq_submittedEntry]
  rcases h with h | h <;> rw [h] <;> simp [nextRevision]

/-- C2 witness: a failed lookup (non-success status) leads to an update
submitted with revision 0, encoded as "0". -/
theorem setFile_fallback_zero_witness :
    firstUpdate (setFile userC fidC envLookupFail 0).2 =
      some (submittedEntry userC fidC [7] 0) ∧
    (updateForm userC fidC (submittedEntry userC fidC [7] 0)).revision
      = ("0".toList) :=
  setFile_fallback_zero userC fidC envLookupFail 0 (Or.inr rfl)

/-- C5: every `setFile` call, whatever the lookup outcome, issues exactly
one blob upload and then exactly one registry lookup before its first
registry update attempt — the first three requests of the trace are
exactly [upload, lookup, update]; when the first submission is accepted
(no conflict) the whole call amounts to exactly one GET and two POSTs. -/
theorem setFile_request_pattern (u : User) (f : FileID) (env : SetEnv)
    (retries : Nat) :
    (setFile u f env retries).2.take 3 =
      [Request.blobUpload, Request.registryLookup (lookupQuery u f),
       Request.registryUpdate (attemptEntry u f env 0)] ∧
    (env.updateAccepts 0 = true →
      countGet (setFile u f env retries).2 = 1 ∧
      countPost (setFile u f env retries).2 = 2) := by
  refine ⟨setFile_take3 u f env retries, fun h => ?_⟩
  cases retries with
  | zero =>
    constructor <;>
      simp [setFile, setFileLoop, h, countGet, countPost,
        List.countP_cons, List.countP_nil, isGet, isPost]
  | succ r =>
    constructor <;>
      simp [setFile, setFileLoop, h, countGet, countPost,
        List.countP_cons, List.countP_nil, isGet, isPost]

/-- C5 witness: at a concrete accepting environment the trace starts
[upload, lookup, update] and totals one GET and two POSTs. -/
theorem setFile_request_pattern_witness :
    (setFile userC fidC envFound11 0).2.take 3 =
      [Request.blobUpload, Request.registryLookup (lookupQuery userC fidC),
       Request.registryUpdate (attemptEntry userC fidC envFound11 0)] ∧
    countGet (setFile userC fidC envFound11 0).2 = 1 ∧
    countPost (setFile userC fidC envFound11 0).2 = 2 := by
  have h := setFile_request_pattern userC fidC envFound11 0
  exact ⟨h.1, h.2 rfl⟩

/-- C8: `getFile` verifies the looked-up entry's signature against the
user's public key before using the data pointer: on a verified entry it
resolves the contained pointer through the Blob Store; on verification
failure it returns an IntegrityError and performs no Blob Store access. -/
theorem getFile_integrity_gate (u : User) (env : GetEnv)
    (se : SignedRegistryEntry) (h : env.lookup = RawLookup.found se) :
    (verify se u.publicKey = true →
      getFile u env =
        (GetOutcome.fileData (env.blob se.entry.data), [se.entry.data])) ∧
    (verify se u.publicKey = false →
      getFile u env = (GetOutcome.integrityError, [])) := by
  constructor <;> intro hv <;> simp [getFile, h, hv]

/-- C8 witness: a verified entry resolves to the blob behind its data
pointer; a tampered entry yields IntegrityError with no blob access. -/
theorem getFile_integrity_gate_witness :
    getFile userC envGetGood =
      (GetOutcome.fileData (envGetGood.blob seC11.entry.data),
       [seC11.entry.data]) ∧
    getFile userC envGetBad = (GetOutcome.integrityError, []) :=
  ⟨(getFile_integrity_gate userC envGetGood seC11 rfl).1 (by decide),
   (getFile_integrity_gate userC envGetBad seBad rfl).2 (by decide)⟩

/-- C9: a conflicted submission makes the session re-run from the lookup
step — every attempt performs its own lookup (GET count equals update
count) — up to a bounded retry budget (at most retries + 1 submissions);
if every submission conflicts the caller receives a ConflictError, and a
successful outcome can only arise from some accepted attempt — never a
silent success. -/
theorem setFile_conflict_retry (u : User) (f : FileID) (env : SetEnv)
    (retries : Nat) :
    countUpdates (setFile u f env retries).2 ≤ retries + 1 ∧
    countGet (setFile u f env retries).2 =
      countUpdates (setFile u f env retries).2 ∧
    ((∀ i, env.updateAccepts i = false) →
      (setFile u f env retries).1 = SetFileOutcome.conflictError) ∧
    ((setFile u f env retries).1 = SetFileOutcome.done →
      ∃ i, i ≤ retries ∧ env.updateAccepts i = true) := by
  have hc := countUpdates_setFileLoop u f env retries 0
  have htr : (setFile u f env retries).2 =
      Request.blobUpload :: (setFileLoop u f env 0 retries).2 := rfl
  have hout : (setFile u f env retries).1 = (setFileLoop u f env 0 retries).1 := rfl
  refine ⟨?_, ?_, ?_, ?_⟩
  · rw [htr]
    have : countUpdates (Request.blobUpload :: (setFileLoop u f env 0 retries).2)
        = countUpdates (setFileLoop u f env 0 retries).2 := by
      simp [countUpdates, List.countP_cons, isUpdate]
    rw [this]
    exact hc.1
  · rw [htr]
    have h1 : countUpdates (Request.blobUpload :: (setFileLoop u f env 0 retries).2)
        = countUpdates (setFileLoop u f env 0 retries).2 := by
      simp [countUpdates, List.countP_cons, isUpdate]
    have h2 : countGet (Request.blobUpload :: (setFileLoop u f env 0 retries).2)
        = countGet (setFileLoop u f env 0 retries).2 := by
      simp [countGet, List.countP_cons, isGet]
    rw [h1, h2]
    exact hc.2
  · intro hconf
    rw [hout]
    exact setFileLoop_all_conflict u f env hconf retries 0
  · intro hdone
    rw [hout] at hdone
    obtain ⟨i, h1, h2, h3⟩ := setFileLoop_done_accepted u f env retries 0 hdone
    exact ⟨i, by omega, h3⟩

/-- C9 witness: with a transport that always reports a conflict and a
retry budget of 2, the caller receives a ConflictError after exactly
3 submissions, each preceded by its own lookup. -/
theorem setFile_conflict_retry_witness :
    (setFile userC fidC envAllConflict 2).1 = SetFileOutcome.conflictError ∧
    countUpdates (setFile userC fidC envAllConflict 2).2 = 3 ∧
    countGet (setFile userC fidC envAllConflict 2).2 = 3 := by
  have h := setFile_conflict_retry userC fidC envAllConflict 2
  refine ⟨h.2.2.1 (fun i => rfl), by decide, by decide⟩

/-- C3 counterexample: the submitted revision is NOT monotonically
non-decreasing across the client's `setFile` calls for a fixed
(publicKey, dataKey) pair.  First call: the lookup returns the verified
entry at revision 11, so the client submits revision 12 (now its highest
known revision).  Second call, same user and FileID: the lookup fails
transiently, and `setFile` submits revision 0 < 12 — the revision-0
fallback regresses below the highest previously known revision. -/
theorem setFile_submitted_revision_regression :
    (firstUpdate (setFile userC fidC envFound11 0).2).map
        (fun se => se.entry.revision) = some 12 ∧
    (firstUpdate (setFile userC fidC envLookupFail 0).2).map
        (fun se => se.entry.revision) = some 0 ∧
    (0 : Nat) < 12 := by
  refine ⟨?_, ?_, by norm_num⟩
  · rw [firstUpdate_setFile]
    have hrev : nextRevision userC (envFound11.lookup 0) = 12 := by decide
    rw [attemptEntry_eq_submittedEntry, hrev]
    rfl
  · rw [firstUpdate_setFile]
    rfl

/-- C3 amended: the revision stored in the registry for a
(publicKey, dataKey) pair is monotonically non-decreasing — the registry
accepts a submission only when it strictly exceeds the stored revision,
so any sequence of submissions (including the regressed ones `setFile`
can produce after a failed lookup, which are simply rejected as
conflicts) never decreases the stored revision. -/
theorem registry_stored_revision_monotone (stored : Nat) (subs : List Nat) :
    stored ≤ List.foldl registryStep stored subs ∧
    (∀ s, stored ≤ registryStep stored s) :=
  ⟨registry_foldl_step_le subs stored, fun s => registryStep_le stored s⟩

/-- C10: both the registry lookup key and the update submission serialize
the FileID as a JSON object with the all-lowercase keys `version`,
`applicationid`, `filetype`, `filename` (the struct fields
`applicationID` and `fileType` are renamed), so the wire-format `fileid`
string always differs from `JSON.stringify` applied to the FileID object
with its original field names. -/
theorem fileid_wire_lowercase (u : User) (f : FileID)
    (se : SignedRegistryEntry) :
    (lookupQuery u f).fileid = encodeFileID f ∧
    (updateForm u f se).fileid = encodeFileID f ∧
    encodeFileID f ≠ encodeFileIDOrig f := by
  refine ⟨rfl, rfl, ?_⟩
  intro h
  unfold encodeFileID encodeFileIDOrig at h
  have h1 := List.append_cancel_left h
  have hnd1 : nonDigitStart (lit2 ++ (jsonEsc f.applicationID ++
      (lit3 ++ (toDec f.fileType ++ (lit4 ++ (jsonEsc f.filename ++ lit5)))))) := by
    rw [lit2_head, List.cons_append, nonDigitStart_cons]; decide
  have hnd2 : nonDigitStart (lit2orig ++ (jsonEsc f.applicationID ++
      (lit3orig ++ (toDec f.fileType ++ (lit4 ++ (jsonEsc f.filename ++ lit5)))))) := by
    rw [show lit2orig = ',' :: ("\"applicationID\":\"".toList) from rfl,
      List.cons_append, nonDigitStart_cons]
    decide
  obtain ⟨-, h2⟩ := digits_append_inj _ _ _ _
    (toDec_all_digits f.version) (toDec_all_digits f.version) hnd1 hnd2 h1
  rw [show lit2 = (",\"application".toList) ++ ('i' :: ("d\":\"".toList)) from rfl,
    show lit2orig = (",\"application".toList) ++ ('I' :: ("D\":\"".toList)) from rfl]
    at h2
  simp only [List.append_assoc, List.cons_append] at h2
  have h3 := List.append_cancel_left h2
  have hchar : 'i' = 'I' := by
    have := List.head_eq_of_cons_eq h3
    exact this
  exact absurd hchar (by decide)

/-- C10 witness: at the concrete test FileID, the lookup key and the
update form agree on the lowercase wire encoding and it differs from the
camel-case stringification. -/
theorem fileid_wire_lowercase_witness :
    (lookupQuery userC fidC).fileid = encodeFileID fidC ∧
    (updateForm userC fidC seC11).fileid = encodeFileID fidC ∧
    encodeFileID fidC ≠ encodeFileIDOrig fidC :=
  fileid_wire_lowercase userC fidC seC11
